import Mathlib

/-!
Verification of the SSR core of the rocket repository: the AsyncBlockingQueue
(async FIFO handoff of idle JSDOM instances), the JsdomPool (bounded pool with
usage-based recycling), and the SsrMiddleware request pipeline (request
filtering, data pre-fetch, injection, stability wait, serialization, release).

Shallow-embedding conventions: the single-threaded event loop is modelled by
explicit state passing; a pending dequeue promise is a registered waiter id;
JSDOM instances are values of a small record carrying the lifecycle metadata
and the two per-request data slots the middleware writes (the window global
and the embedded data script tag). A payload is modelled as a Nat (none means
the JavaScript value is null or the property is absent, both falsy); throwing
collaborator calls inside the middleware are modelled by explicit outcome
flags, since their throw conditions live outside this repository.
-/

namespace Rocket

namespace ABQ

/-- State of one AsyncBlockingQueue (src/.../ssr/AsyncBlockingQueue.js).
Items are resource identities; waiters are the registered resolve functions,
identified by registration number in registration order. Each handoff of an
item (either immediately by dequeue or directly to a waiter by enqueue) is
recorded in the deliveries trace: the first component is the id of the waiter
served, or none when dequeue returned the item immediately. -/
structure QState where
  items : List Nat
  waiters : List Nat
  nextWaiter : Nat
  deliveries : List (Option Nat × Nat)
deriving Repr, DecidableEq

/-- The freshly constructed queue: both lists empty. -/
def initQ : QState := ⟨[], [], 0, []⟩

/-- A queue holding a given idle list and no waiters. -/
def initWith (xs : List Nat) : QState := ⟨xs, [], 0, []⟩

/-- AsyncBlockingQueue.enqueue: if a waiter is pending, hand the item directly
to the first waiter in line (resolve its promise); otherwise store it. -/
def enqueue (s : QState) (x : Nat) : QState :=
  match s.waiters with
  | w :: rest => { s with waiters := rest, deliveries := s.deliveries ++ [(some w, x)] }
  | [] => { s with items := s.items ++ [x] }

/-- AsyncBlockingQueue.dequeue: if an item is available return it immediately,
otherwise register a new waiter (the promise resolve function). -/
def dequeue (s : QState) : QState :=
  match s.items with
  | x :: rest => { s with items := rest, deliveries := s.deliveries ++ [(none, x)] }
  | [] => { s with waiters := s.waiters ++ [s.nextWaiter], nextWaiter := s.nextWaiter + 1 }

/-- One client-visible queue operation. -/
inductive QOp where
  | enq (x : Nat)
  | deq
deriving Repr, DecidableEq

/-- Apply one operation. -/
def step (s : QState) : QOp → QState
  | .enq x => enqueue s x
  | .deq => dequeue s

/-- Run a sequence of operations from the empty queue. -/
def run (ops : List QOp) : QState := ops.foldl step initQ

/-- A burst of n pending dequeue calls, applied in arrival order (the event
loop runs each suspended acquire in sequence). -/
def deqN : Nat → QState → QState
  | 0, s => s
  | n + 1, s => deqN n (dequeue s)

/-- Items carried by one operation. -/
def enqueuedOf : QOp → List Nat
  | .enq x => [x]
  | .deq => []

/-- All items enqueued by a sequence of operations, in order. -/
def enqueuedItems : List QOp → List Nat
  | [] => []
  | op :: rest => enqueuedOf op ++ enqueuedItems rest

/-- The items handed out so far, in handoff order. -/
def delivered (s : QState) : List Nat := s.deliveries.map Prod.snd

/-- The waiters served so far, in service order. -/
def servedWaiters (s : QState) : List Nat := s.deliveries.filterMap Prod.fst

/-- Queue invariant relative to the items enqueued so far: conservation
(handed-out items followed by the idle list are exactly the enqueued items,
in order), mutual exclusion of a non-empty idle list with pending waiters,
and FIFO service of waiters (served ids followed by pending ids are the
registration ids in registration order). -/
def QInv (s : QState) (enq : List Nat) : Prop :=
  delivered s ++ s.items = enq ∧
  (s.waiters ≠ [] → s.items = []) ∧
  servedWaiters s ++ s.waiters = List.range s.nextWaiter

end ABQ

namespace Pool

/-- One JSDOM instance as the pool sees it (src/.../ssr/JsdomPool.js):
the random debugging id and usage counter of dom.poolMeta, plus the two
per-request data slots the middleware writes into the instance. windowData
models window.__INITIAL_DATA__ (none when the property is absent or null);
scriptTag models the textContent of the #ssr-data-script element embedded in
the document (none when the element has not been created yet). -/
structure Ctx where
  id : Nat
  usage : Nat
  windowData : Option Nat
  scriptTag : Option String
deriving Repr, DecidableEq

/-- JsdomPool state: configuration (maxUses, minInstances), the tracking
array this.pool (identities of all live instances), the inner
AsyncBlockingQueue (idle items plus the count of pending acquire resolvers),
and bookkeeping for reasoning: contexts currently held by requests, ids whose
window.close() has run, and the number of replacement creations that have
been started but have not finished booting. nextId is the fresh-identity
source for newly created instances. -/
structure PoolState where
  maxUses : Nat
  minInstances : Nat
  inited : Bool
  pool : List Nat
  items : List Ctx
  waiters : Nat
  held : List Ctx
  closed : List Nat
  pending : Nat
  nextId : Nat
deriving Repr, DecidableEq

/-- queue.enqueue at the pool level: a pending acquire is resumed (its
usageCount increment runs as its promise resolves, so the context goes
straight to that holder), otherwise the context joins the idle list. -/
def poolEnqueue (s : PoolState) (c : Ctx) : PoolState :=
  if 0 < s.waiters then
    { s with waiters := s.waiters - 1, held := s.held ++ [{ c with usage := c.usage + 1 }] }
  else
    { s with items := s.items ++ [c] }

/-- JsdomPool.acquire: dequeue a context (suspending when none is idle) and
increment its usage counter. -/
def acquire (s : PoolState) : PoolState :=
  match s.items with
  | c :: rest => { s with items := rest, held := s.held ++ [{ c with usage := c.usage + 1 }] }
  | [] => { s with waiters := s.waiters + 1 }

/-- JsdomPool.release: a null/undefined argument returns immediately; a
context at or over maxUses is removed from the tracking array, its window is
closed and one replacement creation is started (not awaited); otherwise the
window.__INITIAL_DATA__ property is deleted when set and the context is
re-enqueued. The embedded script tag is not touched on this path. -/
def release (s : PoolState) (dom : Option Ctx) : PoolState :=
  match dom with
  | none => s
  | some c =>
    if s.maxUses ≤ c.usage then
      { s with pool := s.pool.erase c.id, closed := s.closed ++ [c.id],
               pending := s.pending + 1 }
    else
      poolEnqueue s { c with windowData := none }

/-- Completion of JsdomPool.createNewInstance: the freshly booted instance
(usage 0, clean data slots, fresh identity) is pushed onto the tracking array
and enqueued. -/
def createNewInstance (s : PoolState) : PoolState :=
  poolEnqueue
    { s with pool := s.pool ++ [s.nextId], nextId := s.nextId + 1 }
    { id := s.nextId, usage := 0, windowData := none, scriptTag := none }

/-- The asynchronous completion of a replacement creation scheduled by
release: one pending creation finishes booting. -/
def replacementDone (s : PoolState) : PoolState :=
  if 0 < s.pending then createNewInstance { s with pending := s.pending - 1 } else s

/-- JsdomPool.init: idempotent warm-up creating minInstances contexts. -/
def initPool (s : PoolState) : PoolState :=
  if s.inited then s else createNewInstance^[s.minInstances] { s with inited := true }

/-- One event-loop-level pool operation: an acquire call, a release of a
context currently held by a request, or the completion of a scheduled
replacement creation. -/
inductive POp where
  | acq
  | rel (c : Ctx)
  | replDone
deriving Repr, DecidableEq

/-- Apply one pool operation; a release of a context nobody holds is a no-op
(release is only ever called by the request that acquired the context). -/
def pstep (s : PoolState) : POp → PoolState
  | .acq => acquire s
  | .rel c => if c ∈ s.held then release { s with held := s.held.erase c } (some c) else s
  | .replDone => replacementDone s

/-- Run a sequence of pool operations. -/
def prun (s : PoolState) (ops : List POp) : PoolState := ops.foldl pstep s

/-- The identity b has left the pool for good: it is not idle, not held by
any request, not in the tracking array, and below the fresh-identity source
(so no future creation reuses it). -/
def Banned (s : PoolState) (b : Nat) : Prop :=
  (∀ c ∈ s.items, c.id ≠ b) ∧ (∀ c ∈ s.held, c.id ≠ b) ∧ b ∉ s.pool ∧ b < s.nextId

/-- Well-formedness of a pool state: live contexts (idle plus held) have
pairwise distinct identities, the tracking array has no duplicates, and every
identity in sight is below the fresh-identity source. -/
def Good (s : PoolState) : Prop :=
  ((s.items ++ s.held).map Ctx.id).Nodup ∧
  s.pool.Nodup ∧
  (∀ x ∈ s.pool, x < s.nextId) ∧
  (∀ c ∈ s.items ++ s.held, c.id < s.nextId)

end Pool

namespace Middleware

/-- The parts of the incoming HTTP request the middleware consults. -/
structure Request where
  method : String
  url : String
  accept : Option String
  originalUrl : Option String
deriving Repr, DecidableEq

/-- pat is a leading segment of s (character lists); helper for the
JavaScript string predicates, written over character lists so that every
predicate evaluates by kernel reduction. -/
def leadsWith : List Char → List Char → Bool
  | [], _ => true
  | _ :: _, [] => false
  | p :: ps, c :: cs => p == c && leadsWith ps cs

/-- pat occurs somewhere in s: JavaScript String.prototype.includes. -/
def hasSub (pat : List Char) : List Char → Bool
  | [] => leadsWith pat []
  | c :: t => leadsWith pat (c :: t) || hasSub pat t

/-- JavaScript String.prototype.endsWith. -/
def endsWithStr (s suffix : String) : Bool :=
  leadsWith suffix.toList.reverse s.toList.reverse

/-- JavaScript String.prototype.split with a one-character separator. -/
def splitChar (sep : Char) : List Char → List (List Char)
  | [] => [[]]
  | c :: rest =>
    match splitChar sep rest with
    | seg :: segs => if c == sep then [] :: seg :: segs else (c :: seg) :: segs
    | [] => [[]]

/-- The extension alternatives of the static-asset regular expression in
SsrMiddleware.pre (anchored at the end of the URL). -/
def assetExtensions : List String :=
  ["js", "css", "png", "jpg", "jpeg", "gif", "ico", "svg", "json",
   "woff", "woff2", "ttf", "map"]

/-- req.url.match of the asset regular expression: the URL ends with a dot
followed by one of the known asset extensions. -/
def isAssetUrl (url : String) : Bool :=
  assetExtensions.any fun e => endsWithStr url ("." ++ e)

/-- JavaScript String.prototype.includes: pat occurs as a substring of s. -/
def containsStr (s pat : String) : Bool := hasSub pat.toList s.toList

/-- The excluded path markers of SsrMiddleware.pre (API, system and OIDC
endpoints). -/
def excludedParts : List String := ["/oidc/", "/sys/", "/api/", "/rocket/"]

/-- The URL mentions one of the excluded path markers. -/
def isExcludedUrl (url : String) : Bool := excludedParts.any (containsStr url)

/-- The Accept-header check of SsrMiddleware.pre: the header exists and
includes the substring text/html. -/
def acceptsHtml (accept : Option String) : Bool :=
  match accept with
  | none => false
  | some a => containsStr a "text/html"

/-- req.originalUrl with fallback to req.url. -/
def requestPath (req : Request) : String := req.originalUrl.getD req.url

/-- The textContent written into the #ssr-data-script element: the payload
serialized as JSON, or the literal null when no payload was pre-fetched. -/
def dataScriptText (payload : Option Nat) : String :=
  "window.__INITIAL_DATA__ = "
    ++ (match payload with | some d => toString d | none => "null") ++ ";"

/-- Step 6 of SsrMiddleware.pre (hot-swap data injection): write the payload
into the live window global and (re)write the embedded script tag so the
shipped page can self-hydrate. -/
def inject (c : Pool.Ctx) (payload : Option Nat) : Pool.Ctx :=
  { c with windowData := payload, scriptTag := some (dataScriptText payload) }

/-- The route names accepted verbatim by SsrMiddleware.extractRouteName. -/
def recognizedRoutes : List (List Char) := ["home".toList, "contact".toList]

/-- SsrMiddleware.extractRouteName: split the path on slashes, keep non-empty
segments, and map the last one to itself when recognized, otherwise to home
(also when no segment exists). -/
def extractRouteName (fullPath : String) : String :=
  let parts := splitChar '/' fullPath.toList
  let segments := parts.filter fun p => p != []
  match segments.getLast? with
  | some last => if recognizedRoutes.contains last then String.mk last else "home"
  | none => "home"

/-- The last non-empty path segment of a path, when one exists. -/
def lastSegment (fullPath : String) : Option (List Char) :=
  ((splitChar '/' fullPath.toList).filter fun p => p != []).getLast?

/-- The polling loop of SsrMiddleware.waitForStability, counted in 50 ms
ticks from tick t: the interval fires at ticks 1, 2, ...; it resolves at the
first tick at which the #uuAppLoading marker is absent, or once the elapsed
time t * 50 ms exceeds the 2000 ms timeout. marker u is true when the marker
element is present at tick u. The fuel argument carries the remaining ticks
to the timeout (the loop body checks the timeout itself; fuel only makes the
recursion structural and equals 41 - t at every call). -/
def waitLoop (marker : Nat → Bool) : Nat → Nat → Nat
  | 0, t => t
  | fuel + 1, t =>
    if marker t = false ∨ 2000 < t * 50 then t
    else waitLoop marker fuel (t + 1)

/-- SsrMiddleware.waitForStability, returning the tick at which the promise
resolves: the fast path resolves at tick 0 when the marker is already absent,
otherwise the interval polls from tick 1. -/
def waitForStability (marker : Nat → Bool) : Nat :=
  if marker 0 = false then 0 else waitLoop marker 40 1

/-- dom.serialize(): the document markup, including the embedded data script
tag when present. -/
def serializeDom (c : Pool.Ctx) : String :=
  "<html><body>"
    ++ (match c.scriptTag with
        | some t => "<script id=ssr-data-script>" ++ t ++ "</script>"
        | none => "") ++ "</body></html>"

/-- The collaborators of one request that live outside this repository:
whether the /public/ file probed by the static-file branch exists on disk,
the route-data registry (a loader either resolves with a payload or rejects),
the loading-marker observations of the stability poll, whether the client
bundle has installed window.__SSR_SET_ROUTE__, and whether each collaborator
call inside the try block throws. -/
structure Ext where
  publicFileExists : Bool
  registry : String → Option (Except String Nat)
  marker : Nat → Bool
  hasRouteHook : Bool
  injectThrows : Bool
  navigateThrows : Bool
  waitThrows : Bool
  serializeThrows : Bool
  respondThrows : Bool

/-- How SsrMiddleware.pre terminates for one request. -/
inductive Response where
  | notFound404
  | staticFile
  | next
  | html (status : Nat) (contentType : String) (body : String)
  | suspended
deriving Repr, DecidableEq

/-- Result of one SsrMiddleware.pre run: the response, whether an instance
was taken from the pool, whether ssrPool.release was reached, the payload
passed to the injection step (when reached), the tick at which the stability
wait resolved (when reached), and the pool state afterwards. -/
structure PreResult where
  response : Response
  acquired : Bool
  released : Bool
  injected : Option (Option Nat)
  waitTicks : Option Nat
  pool : Pool.PoolState
deriving Repr, DecidableEq

/-- Step 4 of SsrMiddleware.pre: preFetchedData starts as null; when the
registry has a loader for the request path its result is awaited, and a
loader failure is caught, leaving the payload null. -/
def preFetchOf (ext : Ext) (req : Request) : Option Nat :=
  match ext.registry (requestPath req) with
  | some (Except.ok d) => some d
  | some (Except.error _) => none
  | none => none

/-- SsrMiddleware.pre. The guard chain mirrors the source order: source-map
404 shortcut, method check, asset-extension check, excluded-path check,
/public/ static-file branch, Accept check; then the try block: lazy pool
init, data pre-fetch, acquire (suspending when no instance is idle), inject,
navigate, stability wait, serialize, respond, release. A throw anywhere in
the try block is caught and the request falls through to next(); note that
the release call sits at the end of the try block, after the response. -/
def pre (req : Request) (ext : Ext) (s : Pool.PoolState) : PreResult :=
  if endsWithStr req.url ".map" then
    { response := .notFound404, acquired := false, released := false,
      injected := none, waitTicks := none, pool := s }
  else if req.method != "GET" then
    { response := .next, acquired := false, released := false,
      injected := none, waitTicks := none, pool := s }
  else if isAssetUrl req.url then
    { response := .next, acquired := false, released := false,
      injected := none, waitTicks := none, pool := s }
  else if isExcludedUrl req.url then
    { response := .next, acquired := false, released := false,
      injected := none, waitTicks := none, pool := s }
  else if containsStr req.url "/public/" && ext.publicFileExists then
    { response := .staticFile, acquired := false, released := false,
      injected := none, waitTicks := none, pool := s }
  else if !acceptsHtml req.accept then
    { response := .next, acquired := false, released := false,
      injected := none, waitTicks := none, pool := s }
  else
    let s1 := Pool.initPool s
    let payload := preFetchOf ext req
    match s1.items with
    | [] =>
      { response := .suspended, acquired := false, released := false,
        injected := none, waitTicks := none,
        pool := { s1 with waiters := s1.waiters + 1 } }
    | c :: rest =>
      let c1 : Pool.Ctx := { c with usage := c.usage + 1 }
      let s2 := { s1 with items := rest }
      if ext.injectThrows then
        { response := .next, acquired := true, released := false,
          injected := none, waitTicks := none, pool := s2 }
      else
        let c2 := inject c1 payload
        if ext.hasRouteHook && ext.navigateThrows then
          { response := .next, acquired := true, released := false,
            injected := some payload, waitTicks := none, pool := s2 }
        else if ext.waitThrows then
          { response := .next, acquired := true, released := false,
            injected := some payload, waitTicks := none, pool := s2 }
        else
          let ticks := waitForStability ext.marker
          if ext.serializeThrows then
            { response := .next, acquired := true, released := false,
              injected := some payload, waitTicks := some ticks, pool := s2 }
          else if ext.respondThrows then
            { response := .next, acquired := true, released := false,
              injected := some payload, waitTicks := some ticks, pool := s2 }
          else
            { response := .html 200 "text/html; charset=utf-8" (serializeDom c2),
              acquired := true, released := true,
              injected := some payload, waitTicks := some ticks,
              pool := Pool.release s2 (some c2) }

end Middleware

namespace Scenario

/-- A fresh, never-used context with clean data slots. -/
def idleCtx : Pool.Ctx := { id := 1, usage := 0, windowData := none, scriptTag := none }

/-- A context freshly acquired for its first request (usage already bumped
by acquire), with clean data slots. -/
def ctxA : Pool.Ctx := { id := 1, usage := 1, windowData := none, scriptTag := none }

/-- A warm single-instance pool whose only context is currently held by a
request (idle list empty). -/
def heldPool : Pool.PoolState :=
  { maxUses := 50, minInstances := 2, inited := true, pool := [1], items := [],
    waiters := 0, held := [], closed := [], pending := 0, nextId := 2 }

/-- A warm single-instance pool with its context idle. -/
def idlePool : Pool.PoolState :=
  { maxUses := 50, minInstances := 2, inited := true, pool := [1],
    items := [idleCtx],
    waiters := 0, held := [], closed := [], pending := 0, nextId := 2 }

/-- An eligible document request. -/
def htmlReq : Middleware.Request :=
  { method := "GET", url := "/ws/home", accept := some "text/html", originalUrl := none }

/-- External collaborators that all behave: no registered loader, the
loading marker is absent immediately, the route hook is installed, nothing
throws. -/
def calmExt : Middleware.Ext :=
  { publicFileExists := false, registry := fun _ => none, marker := fun _ => false,
    hasRouteHook := true, injectThrows := false, navigateThrows := false,
    waitThrows := false, serializeThrows := false, respondThrows := false }

/-- Same collaborators, except that dom.serialize() throws. -/
def serializeThrowsExt : Middleware.Ext :=
  { calmExt with serializeThrows := true }

/-- A GET request for a source map with an HTML-accepting header. -/
def mapReq : Middleware.Request :=
  { method := "GET", url := "/static/app.map", accept := some "text/html",
    originalUrl := none }

/-- A context that has reached its usage budget. -/
def spentCtx : Pool.Ctx := { id := 1, usage := 1, windowData := none, scriptTag := none }

/-- A one-instance pool with maxUses 1 whose only context is held and spent. -/
def spentPool : Pool.PoolState :=
  { maxUses := 1, minInstances := 1, inited := true, pool := [1], items := [],
    waiters := 0, held := [spentCtx], closed := [], pending := 0, nextId := 2 }

end Scenario

namespace ABQ

theorem qinv_init : QInv initQ [] := by
  refine ⟨rfl, fun h => rfl, by simp [servedWaiters, initQ]⟩

theorem qinv_step (s : QState) (enq : List Nat) (op : QOp) (h : QInv s enq) :
    QInv (step s op) (enq ++ enqueuedOf op) := by
  obtain ⟨hc, he, hf⟩ := h
  simp only [delivered, servedWaiters] at hc hf
  cases op with
  | enq x =>
    cases hw : s.waiters with
    | cons w rest =>
      have hit : s.items = [] := he (by rw [hw]; simp)
      refine ⟨?_, ?_, ?_⟩
      · rw [hit] at hc
        simp only [List.append_nil] at hc
        simp only [step, enqueue, hw, delivered, List.map_append, hit, enqueuedOf]
        simp [hc]
      · intro _
        simpa [step, enqueue, hw] using hit
      · rw [hw] at hf
        simp only [step, enqueue, hw, servedWaiters, List.filterMap_append]
        simpa [List.append_assoc] using hf
    | nil =>
      refine ⟨?_, ?_, ?_⟩
      · simp only [step, enqueue, hw, delivered, enqueuedOf]
        rw [← List.append_assoc, hc]
      · simp [step, enqueue, hw]
      · simpa [step, enqueue, hw, servedWaiters] using hf
  | deq =>
    cases hi : s.items with
    | cons y rest =>
      have hwn : s.waiters = [] := by
        by_contra hne
        rw [he hne] at hi
        exact List.noConfusion hi
      refine ⟨?_, ?_, ?_⟩
      · rw [hi] at hc
        simp only [step, dequeue, hi, delivered, List.map_append, enqueuedOf]
        simpa using hc
      · simp [step, dequeue, hi, hwn]
      · simp only [step, dequeue, hi, servedWaiters, List.filterMap_append]
        simpa using hf
    | nil =>
      refine ⟨?_, ?_, ?_⟩
      · rw [hi] at hc
        simp only [step, dequeue, hi, delivered, enqueuedOf]
        simpa using hc
      · simp [step, dequeue, hi]
      · simp only [step, dequeue, hi, servedWaiters, List.range_succ]
        rw [← List.append_assoc, hf]

theorem qinv_run_from (ops : List QOp) (s : QState) (enq : List Nat) (h : QInv s enq) :
    QInv (ops.foldl step s) (enq ++ enqueuedItems ops) := by
  induction ops generalizing s enq with
  | nil => simpa [enqueuedItems]
  | cons op rest ih =>
    have hstep := qinv_step s enq op h
    have := ih (step s op) (enq ++ enqueuedOf op) hstep
    simpa [enqueuedItems, List.append_assoc] using this

theorem qinv_run (ops : List QOp) : QInv (run ops) (enqueuedItems ops) := by
  simpa [run] using qinv_run_from ops initQ [] qinv_init

/-- C3: for all finite sequences of enqueue and dequeue calls on the
AsyncBlockingQueue, (i) the handed-out items followed by the idle list are
exactly the enqueued items in order, so every enqueued resource is handed out
at most once and never lost; (ii) pending dequeuers are served strictly in
registration order (served ids followed by pending ids are the registration
ids in order); (iii) an item enqueued while waiters are pending is handed
directly to the earliest waiter and never enters the idle list. -/
theorem abq_queue_invariants (ops : List QOp) (x : Nat) :
    delivered (run ops) ++ (run ops).items = enqueuedItems ops ∧
    servedWaiters (run ops) ++ (run ops).waiters = List.range (run ops).nextWaiter ∧
    ((run ops).waiters ≠ [] →
      (run (ops ++ [QOp.enq x])).items = (run ops).items ∧
      (run (ops ++ [QOp.enq x])).deliveries
        = (run ops).deliveries ++ [(some (run ops).waiters.headI, x)]) := by
  obtain ⟨hc, _, hf⟩ := qinv_run ops
  refine ⟨hc, hf, fun hw => ?_⟩
  have hrun : run (ops ++ [QOp.enq x]) = enqueue (run ops) x := by
    simp [run, List.foldl_append, step]
  cases hwc : (run ops).waiters with
  | nil => exact absurd hwc hw
  | cons w rest =>
    rw [hrun]
    simp [enqueue, hwc]

/-- Witness for C3: after a single dequeue on the empty queue one waiter is
pending, and a subsequent enqueue of 7 leaves the idle list unchanged. -/
theorem abq_queue_invariants_witness :
    (run [QOp.deq]).waiters ≠ [] ∧
    (run ([QOp.deq] ++ [QOp.enq 7])).items = (run [QOp.deq]).items :=
  ⟨by decide, ((abq_queue_invariants [QOp.deq] 7).2.2 (by decide)).1⟩

theorem deqN_add (a b : Nat) (s : QState) : deqN (a + b) s = deqN b (deqN a s) := by
  induction a generalizing s with
  | zero => simp [deqN]
  | succ a ih =>
    have : a + 1 + b = (a + b) + 1 := by omega
    rw [this]
    simp only [deqN]
    exact ih (dequeue s)

theorem deqN_drain (ids : List Nat) (s : QState) (hw : s.waiters = []) (hi : s.items = ids) :
    deqN ids.length s
      = { s with items := [],
                 deliveries := s.deliveries ++ ids.map fun x => ((none : Option Nat), x) } := by
  induction ids generalizing s with
  | nil =>
    simp only [List.length_nil, deqN, List.map_nil, List.append_nil]
    cases s
    simp_all
  | cons y ys ih =>
    simp only [List.length_cons, deqN]
    have hd : dequeue s
        = { s with items := ys, deliveries := s.deliveries ++ [(none, y)] } := by
      simp [dequeue, hi]
    rw [hd, ih _ (by simpa using hw) rfl]
    simp

theorem deqN_register (j : Nat) (s : QState) (hi : s.items = []) :
    deqN j s
      = { s with waiters := s.waiters ++ List.range' s.nextWaiter j,
                 nextWaiter := s.nextWaiter + j } := by
  induction j generalizing s with
  | zero =>
    obtain ⟨it, wa, nw, de⟩ := s
    simp [deqN]
  | succ j ih =>
    obtain ⟨it, wa, nw, de⟩ := s
    simp only at hi
    subst hi
    simp only [deqN, dequeue]
    rw [ih ⟨[], wa ++ [nw], nw + 1, de⟩ rfl]
    simp only [QState.mk.injEq, true_and, and_true]
    refine ⟨?_, by omega⟩
    rw [List.range'_succ nw j 1, List.append_assoc]
    rfl

theorem enqN_serve (rs : List Nat) (ws : List Nat) (s : QState)
    (hw : s.waiters = ws) (hlen : rs.length ≤ ws.length) :
    List.foldl enqueue s rs
      = { s with waiters := ws.drop rs.length,
                 deliveries := s.deliveries
                   ++ List.zipWith (fun w r => ((some w : Option Nat), r)) ws rs } := by
  induction rs generalizing s ws with
  | nil =>
    simp only [List.foldl_nil, List.drop_zero, List.zipWith_nil_right, List.append_nil]
    cases s
    simp_all
  | cons r rs ih =>
    cases ws with
    | nil => simp at hlen
    | cons w ws2 =>
      simp only [List.foldl_cons]
      have he : enqueue s r
          = { s with waiters := ws2, deliveries := s.deliveries ++ [(some w, r)] } := by
        simp [enqueue, hw]
      rw [he, ih ws2 _ rfl (by simpa using hlen)]
      simp [List.append_assoc]

/-- C4: n pending acquire calls against a queue holding k idle contexts
(k < n): the first k are handed contexts immediately, in idle-list order, and
those contexts are pairwise distinct identities; the remaining n − k calls
are suspended as waiters in FIFO arrival order and are resolved only by later
releases (enqueues), each release resolving the earliest pending waiter. -/
theorem pool_acquire_fifo (ids rs : List Nat) (n : Nat)
    (hn : ids.length < n) (hnodup : ids.Nodup) (hr : rs.length ≤ n - ids.length) :
    (deqN n (initWith ids)).deliveries
      = ids.map (fun x => ((none : Option Nat), x)) ∧
    (delivered (deqN n (initWith ids))).Nodup ∧
    (deqN n (initWith ids)).items = [] ∧
    (deqN n (initWith ids)).waiters = List.range (n - ids.length) ∧
    (List.foldl enqueue (deqN n (initWith ids)) rs).deliveries
      = ids.map (fun x => ((none : Option Nat), x))
        ++ List.zipWith (fun w r => ((some w : Option Nat), r))
            (List.range (n - ids.length)) rs ∧
    (List.foldl enqueue (deqN n (initWith ids)) rs).waiters
      = (List.range (n - ids.length)).drop rs.length := by
  have hsplit : n = ids.length + (n - ids.length) := by omega
  have hstate : deqN n (initWith ids)
      = { items := [], waiters := List.range (n - ids.length),
          nextWaiter := n - ids.length,
          deliveries := ids.map fun x => ((none : Option Nat), x) } := by
    rw [hsplit, deqN_add]
    rw [deqN_drain ids (initWith ids) rfl rfl]
    rw [deqN_register]
    · simp [initWith, List.range_eq_range']
    · rfl
  have hserve := enqN_serve rs (List.range (n - ids.length))
      (deqN n (initWith ids)) (by rw [hstate]) (by simpa using hr)
  refine ⟨by rw [hstate], ?_, by rw [hstate], by rw [hstate], ?_, ?_⟩
  · rw [hstate]
    simpa [delivered] using hnodup
  · rw [hserve, hstate]
  · rw [hserve]

/-- Witness for C4: three acquire calls against two idle contexts 3 and 8
leave one pending waiter, and one release of context 9 resolves it. -/
theorem pool_acquire_fifo_witness :
    (deqN 3 (initWith [3, 8])).waiters = List.range 1 ∧
    (List.foldl enqueue (deqN 3 (initWith [3, 8])) [9]).waiters
      = (List.range 1).drop 1 := by
  have h := pool_acquire_fifo [3, 8] [9] 3 (by decide) (by decide) (by decide)
  exact ⟨h.2.2.2.1, h.2.2.2.2.2⟩

end ABQ

namespace Pool

theorem pstep_acq (s : PoolState) : pstep s .acq = acquire s := rfl

theorem pstep_rel (s : PoolState) (c : Ctx) :
    pstep s (.rel c)
      = if c ∈ s.held then release { s with held := s.held.erase c } (some c) else s := rfl

theorem pstep_replDone (s : PoolState) : pstep s .replDone = replacementDone s := rfl

theorem release_some (s : PoolState) (c : Ctx) :
    release s (some c)
      = if s.maxUses ≤ c.usage then
          { s with pool := s.pool.erase c.id, closed := s.closed ++ [c.id],
                   pending := s.pending + 1 }
        else poolEnqueue s { c with windowData := none } := rfl

theorem banned_poolEnqueue (s : PoolState) (c : Ctx) (b : Nat)
    (h : Banned s b) (hc : c.id ≠ b) : Banned (poolEnqueue s c) b := by
  obtain ⟨hi, hh, hp, hn⟩ := h
  unfold poolEnqueue
  by_cases hw : 0 < s.waiters
  · rw [if_pos hw]
    refine ⟨hi, ?_, hp, hn⟩
    intro x hx
    rcases List.mem_append.mp hx with hx | hx
    · exact hh x hx
    · rcases List.mem_singleton.mp hx with rfl
      exact hc
  · rw [if_neg hw]
    refine ⟨?_, hh, hp, hn⟩
    intro x hx
    rcases List.mem_append.mp hx with hx | hx
    · exact hi x hx
    · rcases List.mem_singleton.mp hx with rfl
      exact hc

theorem banned_release (s : PoolState) (c : Ctx) (b : Nat)
    (h : Banned s b) (hc : c.id ≠ b) : Banned (release s (some c)) b := by
  obtain ⟨hi, hh, hp, hn⟩ := h
  rw [release_some]
  by_cases hexp : s.maxUses ≤ c.usage
  · rw [if_pos hexp]
    refine ⟨hi, hh, ?_, hn⟩
    intro hmem
    exact hp (List.mem_of_mem_erase hmem)
  · rw [if_neg hexp]
    exact banned_poolEnqueue s _ b ⟨hi, hh, hp, hn⟩ hc

theorem banned_pstep (s : PoolState) (b : Nat) (h : Banned s b) (op : POp) :
    Banned (pstep s op) b := by
  cases op with
  | acq =>
    obtain ⟨hi, hh, hp, hn⟩ := h
    rw [pstep_acq]
    unfold acquire
    cases hit : s.items with
    | nil => exact ⟨fun x hx => absurd hx (List.not_mem_nil x), hh, hp, hn⟩
    | cons c rest =>
      refine ⟨?_, ?_, hp, hn⟩
      · intro x hx
        exact hi x (by rw [hit]; exact List.mem_cons_of_mem _ hx)
      · intro x hx
        rcases List.mem_append.mp hx with hx | hx
        · exact hh x hx
        · rcases List.mem_singleton.mp hx with rfl
          exact hi c (by rw [hit]; exact List.mem_cons_self _ _)
  | rel c =>
    rw [pstep_rel]
    by_cases hmem : c ∈ s.held
    · rw [if_pos hmem]
      refine banned_release _ c b ?_ (h.2.1 c hmem)
      obtain ⟨hi, hh, hp, hn⟩ := h
      exact ⟨hi, fun x hx => hh x (List.mem_of_mem_erase hx), hp, hn⟩
    · rw [if_neg hmem]
      exact h
  | replDone =>
    obtain ⟨hi, hh, hp, hn⟩ := h
    rw [pstep_replDone]
    unfold replacementDone
    by_cases hpend : 0 < s.pending
    · rw [if_pos hpend]
      unfold createNewInstance
      refine banned_poolEnqueue _ _ _ ⟨hi, hh, ?_, ?_⟩ ?_
      · intro hmemb
        rcases List.mem_append.mp hmemb with hmemb | hmemb
        · exact hp hmemb
        · have hb : b = s.nextId := List.mem_singleton.mp hmemb
          omega
      · show b < s.nextId + 1
        omega
      · show s.nextId ≠ b
        omega
    · rw [if_neg hpend]
      exact ⟨hi, hh, hp, hn⟩

theorem banned_prun (s : PoolState) (b : Nat) (h : Banned s b) (ops : List POp) :
    Banned (prun s ops) b := by
  induction ops generalizing s with
  | nil => exact h
  | cons op rest ih =>
    simp only [prun, List.foldl_cons]
    exact ih (pstep s op) (banned_pstep s b h op)

/-- C10: JsdomPool.release called with a null or undefined instance returns
immediately without throwing: the tracking array, the idle queue, the waiter
count and every other part of the pool state are unchanged. -/
theorem release_null_noop (s : PoolState) :
    release s none = s ∧
    (release s none).pool = s.pool ∧
    (release s none).items = s.items ∧
    (release s none).waiters = s.waiters :=
  ⟨rfl, rfl, rfl, rfl⟩

/-- C5: releasing a context whose usage counter has reached maxUses removes
it from the tracking array, records its window close, schedules one
replacement creation without blocking the releasing caller (the idle queue is
untouched by the release itself; the replacement only appears when its
asynchronous creation completes later), and along every sequence of
subsequent pool operations the recycled identity is never re-enqueued, never
handed to an acquirer, and never back in the tracking array. -/
theorem pool_recycle_permanent (s : PoolState) (c : Ctx) (ops : List POp)
    (hg : Good s) (hc : c ∈ s.held) (hexp : s.maxUses ≤ c.usage) :
    c.id ∉ (pstep s (.rel c)).pool ∧
    c.id ∈ (pstep s (.rel c)).closed ∧
    (pstep s (.rel c)).pending = s.pending + 1 ∧
    (pstep s (.rel c)).items = s.items ∧
    Banned (prun (pstep s (.rel c)) ops) c.id := by
  obtain ⟨hnod, hpnod, hplt, hlt⟩ := hg
  have hstep : pstep s (.rel c)
      = { s with held := s.held.erase c, pool := s.pool.erase c.id,
                 closed := s.closed ++ [c.id], pending := s.pending + 1 } := by
    rw [pstep_rel, if_pos hc, release_some]
    split
    · rfl
    · rename_i hno
      exact absurd hexp (by simpa using hno)
  have happnod : (s.items.map Ctx.id ++ s.held.map Ctx.id).Nodup := by
    simpa [List.map_append] using hnod
  have hsplit := List.nodup_append.mp happnod
  have hheldnod : (s.held.map Ctx.id).Nodup := hsplit.2.1
  have hpoolmem : c.id ∉ s.pool.erase c.id := by
    intro hmem
    exact (hpnod.mem_erase_iff.mp hmem).1 rfl
  have hitems_ne : ∀ x ∈ s.items, x.id ≠ c.id := by
    intro x hx heq
    have h1 : x.id ∈ s.items.map Ctx.id := List.mem_map_of_mem Ctx.id hx
    have h2 : c.id ∈ s.held.map Ctx.id := List.mem_map_of_mem Ctx.id hc
    rw [heq] at h1
    exact hsplit.2.2 h1 h2
  have hheld_ne : ∀ x ∈ s.held.erase c, x.id ≠ c.id := by
    intro x hx heq
    have hxheld : x ∈ s.held := List.mem_of_mem_erase hx
    have hxc : x = c := List.inj_on_of_nodup_map hheldnod hxheld hc heq
    subst hxc
    exact ((hheldnod.of_map Ctx.id).mem_erase_iff.mp hx).1 rfl
  have hbanned : Banned (pstep s (.rel c)) c.id := by
    rw [hstep]
    exact ⟨hitems_ne, hheld_ne, hpoolmem, hlt c (List.mem_append.mpr (Or.inr hc))⟩
  refine ⟨?_, ?_, ?_, ?_, banned_prun _ _ hbanned ops⟩
  · rw [hstep]
    exact hpoolmem
  · rw [hstep]
    simp
  · rw [hstep]
  · rw [hstep]

/-- Witness for C5: a one-instance pool at maxUses 1 with its context held
and spent; releasing it, completing the replacement and acquiring again never
resurfaces identity 1. -/
theorem pool_recycle_permanent_witness :
    Good Scenario.spentPool ∧ Scenario.spentCtx ∈ Scenario.spentPool.held ∧
    Scenario.spentPool.maxUses ≤ Scenario.spentCtx.usage ∧
    Banned (prun (pstep Scenario.spentPool (.rel Scenario.spentCtx))
      [POp.replDone, POp.acq]) Scenario.spentCtx.id :=
  ⟨by unfold Good; decide, by decide, by decide,
    (pool_recycle_permanent Scenario.spentPool Scenario.spentCtx
      [POp.replDone, POp.acq] (by unfold Good; decide) (by decide) (by decide)).2.2.2.2⟩

end Pool

namespace Middleware

/-- C9: for every request path string, the route name handed to the
navigation hook is derived from the last non-empty path segment: a
recognized route name maps to itself, an unrecognized segment maps to the
home route, a path with no non-empty segment (empty or all separators) maps
to the home route, and the result is always one of the two known route
names — never an error. -/
theorem extract_route_total (p : String) :
    (∀ seg, lastSegment p = some seg → seg ∈ recognizedRoutes →
      extractRouteName p = String.mk seg) ∧
    (∀ seg, lastSegment p = some seg → seg ∉ recognizedRoutes →
      extractRouteName p = "home") ∧
    (lastSegment p = none → extractRouteName p = "home") ∧
    (extractRouteName p = "home" ∨ extractRouteName p = "contact") := by
  unfold extractRouteName lastSegment
  dsimp only
  cases hl : ((splitChar '/' p.toList).filter fun q => q != []).getLast? with
  | none =>
    refine ⟨?_, ?_, fun _ => rfl, Or.inl rfl⟩
    · intro seg hseg
      exact absurd hseg (by simp)
    · intro seg hseg
      exact absurd hseg (by simp)
  | some seg =>
    dsimp only
    have hcm : recognizedRoutes.contains seg = true ↔ seg ∈ recognizedRoutes := by
      simp [List.contains]
    refine ⟨?_, ?_, ?_, ?_⟩
    · intro s2 hs2 hmem
      rw [Option.some.injEq] at hs2
      subst hs2
      rw [if_pos (hcm.mpr hmem)]
    · intro s2 hs2 hmem
      rw [Option.some.injEq] at hs2
      subst hs2
      rw [if_neg (fun hcon => hmem (hcm.mp hcon))]
    · intro hnone
      exact absurd hnone (by simp)
    · by_cases hmem : seg ∈ recognizedRoutes
      · rw [if_pos (hcm.mpr hmem)]
        have hseg2 : seg = "home".toList ∨ seg = "contact".toList := by
          simpa [recognizedRoutes] using hmem
        rcases hseg2 with rfl | rfl
        · exact Or.inl (by decide)
        · exact Or.inr (by decide)
      · rw [if_neg (fun hcon => hmem (hcm.mp hcon))]
        exact Or.inl rfl

/-- Witness for C9 at the concrete path /app/contact, whose last non-empty
segment is the recognized route contact. -/
theorem extract_route_total_witness :
    lastSegment "/app/contact" = some "contact".toList ∧
    "contact".toList ∈ recognizedRoutes ∧
    extractRouteName "/app/contact" = String.mk "contact".toList :=
  ⟨by decide, by decide,
    (extract_route_total "/app/contact").1 "contact".toList (by decide) (by decide)⟩

theorem waitLoop_spec (marker : Nat → Bool) (fuel t : Nat) (h : fuel + t = 41) :
    t ≤ waitLoop marker fuel t ∧ waitLoop marker fuel t ≤ 41 ∧
    (∀ u, t ≤ u → u < waitLoop marker fuel t → marker u = true) ∧
    (waitLoop marker fuel t < 41 → marker (waitLoop marker fuel t) = false) := by
  induction fuel generalizing t with
  | zero =>
    unfold waitLoop
    refine ⟨Nat.le_refl t, by omega, ?_, ?_⟩
    · intro u hu1 hu2
      omega
    · intro hlt
      omega
  | succ fuel ih =>
    unfold waitLoop
    split
    · rename_i hcond
      refine ⟨Nat.le_refl t, by omega, ?_, ?_⟩
      · intro u hu1 hu2
        omega
      · intro hlt
        rcases hcond with hm | htime
        · exact hm
        · omega
    · rename_i hcond
      rw [not_or] at hcond
      obtain ⟨hm, htime⟩ := hcond
      have hmt : marker t = true := by
        cases hmk : marker t
        · exact absurd hmk hm
        · rfl
      obtain ⟨ih1, ih2, ih3, ih4⟩ := ih (t + 1) (by omega)
      refine ⟨by omega, ih2, ?_, ih4⟩
      intro u hu1 hu2
      rcases Nat.eq_or_lt_of_le hu1 with rfl | hu3
      · exact hmt
      · exact ih3 u (by omega) hu2

theorem waitLoop_all_present (marker : Nat → Bool) (fuel t : Nat) (h : fuel + t = 41)
    (hall : ∀ u, marker u = true) : waitLoop marker fuel t = 41 := by
  induction fuel generalizing t with
  | zero =>
    unfold waitLoop
    omega
  | succ fuel ih =>
    unfold waitLoop
    split
    · rename_i hcond
      rcases hcond with hm | htime
      · rw [hall t] at hm
        exact absurd hm (by decide)
      · omega
    · exact ih (t + 1) (by omega)

theorem waitForStability_spec (marker : Nat → Bool) :
    waitForStability marker ≤ 41 ∧
    (∀ u, u < waitForStability marker → marker u = true) ∧
    (waitForStability marker < 41 → marker (waitForStability marker) = false) ∧
    ((∀ u, marker u = true) → waitForStability marker = 41) := by
  unfold waitForStability
  by_cases h0 : marker 0 = false
  · rw [if_pos h0]
    refine ⟨by omega, ?_, fun _ => h0, ?_⟩
    · intro u hu
      omega
    · intro hall
      rw [hall 0] at h0
      exact absurd h0 (by decide)
  · rw [if_neg h0]
    have hm0 : marker 0 = true := by
      cases hmk : marker 0
      · exact absurd hmk h0
      · rfl
    obtain ⟨h1, h2, h3, h4⟩ := waitLoop_spec marker 40 1 (by omega)
    refine ⟨h2, ?_, h4, fun hall => waitLoop_all_present marker 40 1 (by omega) hall⟩
    intro u hu
    rcases Nat.eq_zero_or_pos u with rfl | hpos
    · exact hm0
    · exact h3 u hpos hu

theorem pre_success (req : Request) (ext : Ext) (s : Pool.PoolState)
    (c : Pool.Ctx) (rest : List Pool.Ctx)
    (hnm : endsWithStr req.url ".map" = false)
    (hm : req.method = "GET")
    (ha : isAssetUrl req.url = false)
    (he : isExcludedUrl req.url = false)
    (hpub : (containsStr req.url "/public/" && ext.publicFileExists) = false)
    (hacc : acceptsHtml req.accept = true)
    (h7 : ext.injectThrows = false)
    (h8 : (ext.hasRouteHook && ext.navigateThrows) = false)
    (h9 : ext.waitThrows = false)
    (h10 : ext.serializeThrows = false)
    (h11 : ext.respondThrows = false)
    (hitems : (Pool.initPool s).items = c :: rest) :
    pre req ext s
      = { response := .html 200 "text/html; charset=utf-8"
            (serializeDom (inject { c with usage := c.usage + 1 } (preFetchOf ext req))),
          acquired := true, released := true,
          injected := some (preFetchOf ext req),
          waitTicks := some (waitForStability ext.marker),
          pool := Pool.release { Pool.initPool s with items := rest }
                    (some (inject { c with usage := c.usage + 1 }
                      (preFetchOf ext req))) } := by
  unfold pre
  simp only [hnm, hm, ha, he, hpub, hacc, h7, h8, h9, h10, h11, hitems,
    Bool.false_eq_true, if_false, bne_self_eq_false, Bool.not_true]

theorem pre_fallthrough (req : Request) (ext : Ext) (s : Pool.PoolState)
    (hnm : endsWithStr req.url ".map" = false)
    (hrej : req.method ≠ "GET" ∨ isAssetUrl req.url = true ∨
      isExcludedUrl req.url = true ∨
      ((containsStr req.url "/public/" && ext.publicFileExists) = false ∧
        acceptsHtml req.accept = false)) :
    (pre req ext s).response = Response.next := by
  by_cases hm : req.method = "GET"
  · by_cases ha : isAssetUrl req.url = true
    · simp [pre, hnm, hm, ha]
    · rw [Bool.not_eq_true] at ha
      by_cases he : isExcludedUrl req.url = true
      · simp [pre, hnm, hm, ha, he]
      · rw [Bool.not_eq_true] at he
        rcases hrej with hm2 | ha2 | he2 | ⟨hpub, hacc⟩
        · exact absurd hm hm2
        · rw [ha2] at ha
          exact absurd ha (by decide)
        · rw [he2] at he
          exact absurd he (by decide)
        · simp [pre, hnm, hm, ha, he, hpub, hacc]
  · have hb : (req.method != "GET") = true := by
      simpa [bne_iff_ne] using hm
    simp [pre, hnm, hb]

/-- C6 (amended): with the source-map special case set aside, filtering
behaves as stated: non-GET requests, requests for known asset extensions,
excluded paths, and requests without an HTML-accepting Accept header fall
through to the next handler; eligible requests (when no collaborator throws
and an instance is idle after warm-up) are answered with status 200, content
type text/html; charset=utf-8 and the serialized document. URLs ending in
.map are answered 404 instead (see the counterexample), and a /public/ URL
whose file exists is streamed from disk; both cases are excluded by the two
hypotheses. -/
theorem filter_and_render (req : Request) (ext : Ext) (s : Pool.PoolState)
    (c : Pool.Ctx) (rest : List Pool.Ctx)
    (hnm : endsWithStr req.url ".map" = false)
    (hpub : (containsStr req.url "/public/" && ext.publicFileExists) = false) :
    (req.method ≠ "GET" → (pre req ext s).response = Response.next) ∧
    (isAssetUrl req.url = true → (pre req ext s).response = Response.next) ∧
    (isExcludedUrl req.url = true → (pre req ext s).response = Response.next) ∧
    (acceptsHtml req.accept = false → (pre req ext s).response = Response.next) ∧
    (req.method = "GET" → isAssetUrl req.url = false → isExcludedUrl req.url = false →
      acceptsHtml req.accept = true → ext.injectThrows = false →
      (ext.hasRouteHook && ext.navigateThrows) = false → ext.waitThrows = false →
      ext.serializeThrows = false → ext.respondThrows = false →
      (Pool.initPool s).items = c :: rest →
      (pre req ext s).response
        = Response.html 200 "text/html; charset=utf-8"
            (serializeDom (inject { c with usage := c.usage + 1 }
              (preFetchOf ext req)))) := by
  refine ⟨?_, ?_, ?_, ?_, ?_⟩
  · intro h
    exact pre_fallthrough req ext s hnm (Or.inl h)
  · intro h
    exact pre_fallthrough req ext s hnm (Or.inr (Or.inl h))
  · intro h
    exact pre_fallthrough req ext s hnm (Or.inr (Or.inr (Or.inl h)))
  · intro h
    exact pre_fallthrough req ext s hnm (Or.inr (Or.inr (Or.inr ⟨hpub, h⟩)))
  · intro hm ha he hacc h7 h8 h9 h10 h11 hitems
    rw [pre_success req ext s c rest hnm hm ha he hpub hacc h7 h8 h9 h10 h11 hitems]

/-- Witness for C6 (amended) at a concrete eligible request against the warm
single-instance pool with calm collaborators. -/
theorem filter_and_render_witness :
    endsWithStr Scenario.htmlReq.url ".map" = false ∧
    (pre Scenario.htmlReq Scenario.calmExt Scenario.idlePool).response
      = Response.html 200 "text/html; charset=utf-8"
          (serializeDom (inject Scenario.ctxA
            (preFetchOf Scenario.calmExt Scenario.htmlReq))) :=
  ⟨by decide,
    (filter_and_render Scenario.htmlReq Scenario.calmExt Scenario.idlePool
        Scenario.idleCtx [] (by decide) (by decide)).2.2.2.2
      rfl (by decide) (by decide) (by decide) rfl rfl rfl rfl rfl (by decide)⟩

/-- C6 counterexample: a GET request for a source map — .map is among the
known asset extensions — with an HTML-accepting Accept header is answered
with the distinct status 404 by the source-map shortcut, not passed to the
next handler, refuting the claim that such requests always fall through. -/
theorem map_request_gets_404 :
    isAssetUrl Scenario.mapReq.url = true ∧
    Scenario.mapReq.method = "GET" ∧
    acceptsHtml Scenario.mapReq.accept = true ∧
    (pre Scenario.mapReq Scenario.calmExt Scenario.idlePool).response
      = Response.notFound404 ∧
    Response.notFound404 ≠ Response.next := by
  refine ⟨by decide, rfl, by decide, by decide, by decide⟩

/-- C7: a request path with no registered loader proceeds to render with a
null data payload rather than erroring, and a request path whose loader
rejects has the error caught and likewise proceeds to render with a null
payload: in both cases the injection step receives null and the request is
answered 200 with the serialized document. -/
theorem loader_failure_tolerant (req : Request) (ext : Ext) (s : Pool.PoolState)
    (c : Pool.Ctx) (rest : List Pool.Ctx)
    (hnm : endsWithStr req.url ".map" = false)
    (hm : req.method = "GET")
    (ha : isAssetUrl req.url = false)
    (he : isExcludedUrl req.url = false)
    (hpub : (containsStr req.url "/public/" && ext.publicFileExists) = false)
    (hacc : acceptsHtml req.accept = true)
    (h7 : ext.injectThrows = false)
    (h8 : (ext.hasRouteHook && ext.navigateThrows) = false)
    (h9 : ext.waitThrows = false)
    (h10 : ext.serializeThrows = false)
    (h11 : ext.respondThrows = false)
    (hitems : (Pool.initPool s).items = c :: rest) :
    (ext.registry (requestPath req) = none →
      preFetchOf ext req = none ∧
      (pre req ext s).injected = some none ∧
      (pre req ext s).response
        = Response.html 200 "text/html; charset=utf-8"
            (serializeDom (inject { c with usage := c.usage + 1 } none))) ∧
    (∀ e, ext.registry (requestPath req) = some (Except.error e) →
      preFetchOf ext req = none ∧
      (pre req ext s).injected = some none ∧
      (pre req ext s).response
        = Response.html 200 "text/html; charset=utf-8"
            (serializeDom (inject { c with usage := c.usage + 1 } none))) := by
  have hpre := pre_success req ext s c rest hnm hm ha he hpub hacc h7 h8 h9 h10 h11 hitems
  constructor
  · intro hreg
    have hpf : preFetchOf ext req = none := by
      unfold preFetchOf
      rw [hreg]
    rw [hpre, hpf]
    exact ⟨rfl, rfl, rfl⟩
  · intro e hreg
    have hpf : preFetchOf ext req = none := by
      unfold preFetchOf
      rw [hreg]
    rw [hpre, hpf]
    exact ⟨rfl, rfl, rfl⟩

/-- Witness for C7 at a concrete eligible request with an empty registry. -/
theorem loader_failure_tolerant_witness :
    Scenario.calmExt.registry (requestPath Scenario.htmlReq) = none ∧
    (pre Scenario.htmlReq Scenario.calmExt Scenario.idlePool).injected = some none :=
  ⟨rfl,
    ((loader_failure_tolerant Scenario.htmlReq Scenario.calmExt Scenario.idlePool
        Scenario.idleCtx [] (by decide) rfl (by decide) (by decide) (by decide)
        (by decide) rfl rfl rfl rfl rfl (by decide)).1 rfl).2.1⟩

/-- C8: the stability wait always resolves: it resolves within 41 ticks of
50 ms (2000 ms timeout plus one interval), the loading marker is present at
every tick before the resolution tick (the loop polls until the marker is
absent), a resolution before the deadline happens exactly when the marker is
absent at that tick, and a marker that never clears still resolves at the
timeout tick 41 — after which the pipeline serializes whatever markup is
present and responds 200 text/html. -/
theorem stability_wait_resolves (req : Request) (ext : Ext) (s : Pool.PoolState)
    (c : Pool.Ctx) (rest : List Pool.Ctx) :
    waitForStability ext.marker ≤ 41 ∧
    (∀ u, u < waitForStability ext.marker → ext.marker u = true) ∧
    (waitForStability ext.marker < 41 →
      ext.marker (waitForStability ext.marker) = false) ∧
    ((∀ u, ext.marker u = true) → waitForStability ext.marker = 41) ∧
    (endsWithStr req.url ".map" = false → req.method = "GET" →
      isAssetUrl req.url = false → isExcludedUrl req.url = false →
      (containsStr req.url "/public/" && ext.publicFileExists) = false →
      acceptsHtml req.accept = true → ext.injectThrows = false →
      (ext.hasRouteHook && ext.navigateThrows) = false → ext.waitThrows = false →
      ext.serializeThrows = false → ext.respondThrows = false →
      (Pool.initPool s).items = c :: rest →
      (pre req ext s).waitTicks = some (waitForStability ext.marker) ∧
      (pre req ext s).response
        = Response.html 200 "text/html; charset=utf-8"
            (serializeDom (inject { c with usage := c.usage + 1 }
              (preFetchOf ext req)))) := by
  obtain ⟨hb, hpoll, hstop, hto⟩ := waitForStability_spec ext.marker
  refine ⟨hb, hpoll, hstop, hto, ?_⟩
  intro hnm hm ha he hpub hacc h7 h8 h9 h10 h11 hitems
  rw [pre_success req ext s c rest hnm hm ha he hpub hacc h7 h8 h9 h10 h11 hitems]
  exact ⟨rfl, rfl⟩

/-- Witness for C8 with a marker that never clears: the wait resolves at the
timeout tick 41 and the pipeline still answers 200. -/
theorem stability_wait_resolves_witness :
    waitForStability (fun _ => true) = 41 ∧
    (pre Scenario.htmlReq { Scenario.calmExt with marker := fun _ => true }
        Scenario.idlePool).waitTicks = some 41 ∧
    (pre Scenario.htmlReq { Scenario.calmExt with marker := fun _ => true }
        Scenario.idlePool).response
      = Response.html 200 "text/html; charset=utf-8"
          (serializeDom (inject Scenario.ctxA
            (preFetchOf { Scenario.calmExt with marker := fun _ => true }
              Scenario.htmlReq))) := by
  have h := (stability_wait_resolves Scenario.htmlReq
      { Scenario.calmExt with marker := fun _ => true } Scenario.idlePool
      Scenario.idleCtx []).2.2.2.2
  have h2 := h (by decide) rfl (by decide) (by decide) (by decide) (by decide)
      rfl rfl rfl rfl rfl (by decide)
  refine ⟨by decide, ?_, h2.2⟩
  rw [h2.1]
  decide

/-- C2: at the failing input — an eligible request whose serialize step
throws — the middleware catches the error and falls through to next() (no
error reaches the client), but the context acquired in step 5 is never
released: ssrPool.release sits after the response at the end of the try
block, so the pool's idle queue stays empty and the instance leaks, contrary
to the claim that the context is returned regardless of the outcome of steps
5-8. -/
theorem serialize_throw_leaks_context :
    (pre Scenario.htmlReq Scenario.serializeThrowsExt Scenario.idlePool).response
      = Response.next ∧
    (pre Scenario.htmlReq Scenario.serializeThrowsExt Scenario.idlePool).acquired
      = true ∧
    (pre Scenario.htmlReq Scenario.serializeThrowsExt Scenario.idlePool).released
      = false ∧
    (pre Scenario.htmlReq Scenario.serializeThrowsExt Scenario.idlePool).pool.items
      = [] := by
  refine ⟨by decide, by decide, by decide, by decide⟩

/-- C1 counterexample: with the pool's only context held by request A, which
injected payload 1 into both the window global and the embedded script tag,
releasing the context (usage 1 is below maxUses 50) and re-acquiring it hands
out a context whose script tag still carries request A's serialized payload:
the pool cleared only the window global, not all per-request injected data. -/
theorem release_retains_script_tag :
    (Pool.acquire (Pool.release Scenario.heldPool
        (some (inject Scenario.ctxA (some 1))))).held
      = [{ Scenario.ctxA with usage := 2,
                              scriptTag := some (dataScriptText (some 1)) }] ∧
    dataScriptText (some 1) ≠ dataScriptText none := by
  refine ⟨by decide, by decide⟩

/-- C1 (amended): a context released before reaching maxUses is re-enqueued
with the window global cleared but with the embedded script tag left exactly
as the previous request wrote it; the next request's injection step
overwrites both slots unconditionally, so the payload a later request renders
with is always its own. -/
theorem release_clears_window_global (s : Pool.PoolState) (c : Pool.Ctx)
    (q : Option Nat) (hu : c.usage < s.maxUses) (hw : s.waiters = 0) :
    Pool.release s (some c)
      = { s with items := s.items ++ [{ c with windowData := none }] } ∧
    (inject { c with windowData := none } q).windowData = q ∧
    (inject { c with windowData := none } q).scriptTag
      = some (dataScriptText q) := by
  refine ⟨?_, rfl, rfl⟩
  rw [Pool.release_some, if_neg (by omega)]
  unfold Pool.poolEnqueue
  rw [if_neg (by omega)]

/-- Witness for C1 (amended) at the concrete held context and pool. -/
theorem release_clears_window_global_witness :
    Scenario.ctxA.usage < Scenario.heldPool.maxUses ∧
    Scenario.heldPool.waiters = 0 ∧
    Pool.release Scenario.heldPool (some Scenario.ctxA)
      = { Scenario.heldPool with
          items := Scenario.heldPool.items
            ++ [{ Scenario.ctxA with windowData := none }] } :=
  ⟨by decide, rfl,
    (release_clears_window_global Scenario.heldPool Scenario.ctxA (some 2)
      (by decide) rfl).1⟩

end Middleware

end Rocket
